import Mathlib

/-!
Shallow embedding of `graves.py` (repository `parseagrave`).

The script fetches a person's memorial page by identifier, extracts the
person's name, birth/death facts and relationship groups, merges the
assembled record into a name-keyed store, and recurses on the parent
links discovered in the record.

Modelling conventions:
* Python `dict`s are association lists (`List (String × β)`) with
  insertion-order semantics; `dictSet` models `d[k] = v` and
  `dictUpdate` models `d.update(other)`.
* Python exceptions are values of `PyExc`; code that can raise returns
  `Except PyExc α`.  Raising a non-exception value (as
  `raise f'...'` does in `get_grave_by_id`) raises
  `TypeError: exceptions must derive from BaseException` in Python 3,
  modelled by `PyExc.typeError raiseStrMsg`.
* The markup-parsing library is a black-box tree query: a parsed page is
  represented by the results of the fixed queries the script performs
  (`Page`, `PageSection`, `MemberItem`, `DDRecord`).
* `requests.get` is a black-box transport oracle
  `String → Except String Response`; `Response.raise_for_status` raises
  exactly for 400 ≤ status < 600.
* The unbounded Python recursion of `get_info` is given explicit fuel;
  exhausting fuel is modelled as `PyExc.recursionError`.
-/

namespace Graves

/-- Python exceptions that the script can raise or catch. -/
inductive PyExc where
  | attributeError
  | keyError
  | indexError
  | typeError (msg : String)
  | recursionError
  deriving DecidableEq, Repr

/-- The message of the `TypeError` Python 3 raises when a non-exception
value (here: the f-string in `get_grave_by_id`) is raised. -/
def raiseStrMsg : String := "exceptions must derive from BaseException"

/-- An HTTP response as seen through `requests`: status code and body text. -/
structure Response where
  status : Nat
  text : String
  deriving DecidableEq, Repr

/-- `Response.raise_for_status`: raises `requests.exceptions.HTTPError`
for any 4xx/5xx status, otherwise returns normally. -/
def raise_for_status (r : Response) : Except String Unit :=
  if 400 ≤ r.status ∧ r.status < 600 then
    .error ("HTTP error for status " ++ toString r.status)
  else
    .ok ()

/-! ### Python dict operations (insertion-ordered association lists) -/

/-- Look a key up in a Python dict (`d[k]` / `k in d`). -/
def dlookup {β : Type} (d : List (String × β)) (k : String) : Option β :=
  match d with
  | [] => none
  | p :: rest => if p.1 = k then some p.2 else dlookup rest k

/-- `d[k] = v`: replace in place when the key is present (keeping its
position), otherwise append — Python's insertion-order semantics. -/
def dictSet {β : Type} (d : List (String × β)) (k : String) (v : β) :
    List (String × β) :=
  match d with
  | [] => [(k, v)]
  | p :: rest => if p.1 = k then (k, v) :: rest else p :: dictSet rest k v

/-- `d.update(other)`: set each of `other`'s entries in order. -/
def dictUpdate {β : Type} (d other : List (String × β)) : List (String × β) :=
  other.foldl (fun acc p => dictSet acc p.1 p.2) d

/-- The keys of a dict, in iteration order. -/
def dkeys {β : Type} (d : List (String × β)) : List String := d.map (·.1)

/-! ### `get_grave_by_id` -/

/-- `get_grave_by_id(base_url, id_number)`: one GET, `raise_for_status`,
and on any `RequestException` the script executes `raise f'...'` —
which, the raised value being a `str`, actually raises
`TypeError(raiseStrMsg)` and discards the f-string (and with it the
underlying cause).  On success it returns the body text. -/
def get_grave_by_id (http : String → Except String Response)
    (base_url id_number : String) : Except PyExc String :=
  let req_url := base_url ++ id_number
  match http req_url with
  | .error _ => .error (PyExc.typeError raiseStrMsg)
  | .ok req =>
    match raise_for_status req with
    | .error _ => .error (PyExc.typeError raiseStrMsg)
    | .ok _ => .ok req.text

/-! ### `get_name` -/

/-- Python `s.strip()`: drop whitespace from both ends. -/
def pyStrip (s : String) : String :=
  String.mk
    (((s.data.dropWhile Char.isWhitespace).reverse.dropWhile
        Char.isWhitespace).reverse)

/-- `re.sub(' +', ' ', s)`: collapse each run of space characters (only
U+0020, as the regex says) to a single space.  `prevSpace` records
whether the previous character was a space already emitted. -/
def collapseSpacesGo : Bool → List Char → List Char
  | _, [] => []
  | prevSpace, c :: rest =>
    if c = ' ' then
      if prevSpace then collapseSpacesGo true rest
      else ' ' :: collapseSpacesGo true rest
    else c :: collapseSpacesGo false rest

/-- `re.sub(' +', ' ', s)` on a character list. -/
def collapseSpaces (l : List Char) : List Char :=
  collapseSpacesGo false l

/-- `re.sub('VVeteran', 'Veteran', s)`: replace non-overlapping
occurrences of the literal pattern, scanning left to right. -/
def replaceVV : List Char → List Char
  | 'V' :: 'V' :: 'e' :: 't' :: 'e' :: 'r' :: 'a' :: 'n' :: rest =>
    'V' :: 'e' :: 't' :: 'e' :: 'r' :: 'a' :: 'n' :: replaceVV rest
  | c :: rest => c :: replaceVV rest
  | [] => []

/-- `get_name`, applied to the text of the `h1` element once the fixed
container chain has resolved: collapse runs of spaces, then fix the
`"VVeteran"` artifact.  The Python code performs no `strip()` here. -/
def get_name (h1text : String) : String :=
  String.mk (replaceVV (collapseSpaces h1text.data))

/-! ### Birth/death fact extraction (`get_birth_record`, `get_death_record`) -/

/-- One `dd` child of the birth/death definition list, represented by
the results of the four queries the script can make on it: the text of
the element found by `find('time', itemprop=birthDate)`,
`find('div', itemprop=birthPlace)`, `find('span', itemprop=deathDate)`,
`find('div', itemprop=deathPlace)` — `none` when `find` returns `None`
(so that `.text` raises `AttributeError`). -/
structure DDRecord where
  birthDate : Option String
  birthPlace : Option String
  deathDate : Option String
  deathPlace : Option String
  deriving DecidableEq, Repr

/-- The dict built by `get_birth_record` / `get_death_record`: a date
key and a place key, each possibly absent. -/
structure FactDict where
  date : Option String
  place : Option String
  deriving DecidableEq, Repr

/-- The empty fact dict `{}`. -/
def FactDict.empty : FactDict := ⟨none, none⟩

/-- The body of `get_birth_record`'s `try` block for one `dd` child:
`birth_data['birthdate']` is assigned first, so when the date resolves
but the place lookup raises `AttributeError`, the date assignment is
kept; the exception is swallowed by the `except` clause. -/
def birthStep (acc : FactDict) (record : DDRecord) : FactDict :=
  match record.birthDate with
  | none => acc
  | some bd =>
    match record.birthPlace with
    | none => ⟨some (pyStrip bd), acc.place⟩
    | some bp => ⟨some (pyStrip bd), some (pyStrip bp)⟩

/-- The `for record in bio.find_all('dd')` loop of `get_brith_record`. -/
def birthScan : List DDRecord → FactDict → FactDict
  | [], acc => acc
  | r :: rest, acc => birthScan rest (birthStep acc r)

/-- `get_birth_record(bio)`: scan every `dd` child, swallowing
`AttributeError` per child; never raises. -/
def get_birth_record (bio : List DDRecord) : FactDict :=
  birthScan bio FactDict.empty

/-- The body of `get_death_record`'s `try` block for one `dd` child
(symmetric to `birthStep`). -/
def deathStep (acc : FactDict) (record : DDRecord) : FactDict :=
  match record.deathDate with
  | none => acc
  | some dd =>
    match record.deathPlace with
    | none => ⟨some (pyStrip dd), acc.place⟩
    | some dp => ⟨some (pyStrip dd), some (pyStrip dp)⟩

/-- The `for record in bio.find_all('dd')` loop of `get_death_record`. -/
def deathScan : List DDRecord → FactDict → FactDict
  | [], acc => acc
  | r :: rest, acc => deathScan rest (deathStep acc r)

/-- `get_death_record(bio)`: scan every `dd` child, swallowing
`AttributeError` per child; never raises. -/
def get_death_record (bio : List DDRecord) : FactDict :=
  deathScan bio FactDict.empty

/-! ### `parse_page_info` -/

/-- One related-person entry in a relationship group: the `url` from the
`data-href` attribute and the (possibly defaulted) birth/death dates. -/
structure Member where
  url : String
  bday : String
  dday : String
  deriving DecidableEq, Repr

/-- The inner dict of `parse_page_info`: related-person name ↦ `Member`. -/
abbrev MemberDict := List (String × Member)

/-- The result dict of `parse_page_info`: relationship label ↦ members. -/
abbrev RelDict := List (String × MemberDict)

/-- One `div.member-item d-flex mb-2` element, represented by the results
of the queries the script performs on it: the `h3` heading's text (`none`
when `find('h3')` returns `None`), the `data-href` attribute (`none`
when absent, so that `info['data-href']` raises `KeyError`), and the
texts of the birth/death date `span`s (`none` when absent, so that
`.text` raises `AttributeError`, caught and defaulted). -/
structure MemberItem where
  h3text : Option String
  dataHref : Option String
  birthDate : Option String
  deathDate : Option String
  deriving DecidableEq, Repr

/-- One element of the `ResultSet` passed to `parse_page_info`: its
member items (`records.find_all('div', class_='member-item d-flex mb-2')`)
and the text of its `b` element (`none` when `find('b')` returns `None`). -/
structure PageSection where
  members : List MemberItem
  label : Option String
  deriving DecidableEq, Repr

/-- The sentinel date assigned when a date element is absent. -/
def defaultDate : String := "1 Jan 1001"

/-- The body of `parse_page_info`'s inner loop for one member item:
mandatory name (`info.find('h3').text` — `AttributeError` when absent)
and url (`info['data-href']` — `KeyError` when absent), defaulted birth
and death dates, then the label lookup (`records.find('b').text` —
`AttributeError` when absent) and the merge into the result dict. -/
def processMember (sectionLabel : Option String) (ret : RelDict)
    (info : MemberItem) : Except PyExc RelDict := do
  let name ← match info.h3text with
    | none => .error PyExc.attributeError
    | some t => .ok (pyStrip t)
  let url ← match info.dataHref with
    | none => .error PyExc.keyError
    | some u => .ok u
  let bday := match info.birthDate with
    | none => defaultDate
    | some t => pyStrip t
  let dday := match info.deathDate with
    | none => defaultDate
    | some t => pyStrip t
  let tmp_dict : MemberDict := [(name, ⟨url, bday, dday⟩)]
  let relationship ← match sectionLabel with
    | none => .error PyExc.attributeError
    | some t => .ok (pyStrip t)
  match dlookup ret relationship with
  | some inner => .ok (dictSet ret relationship (dictUpdate inner tmp_dict))
  | none => .ok (dictSet ret relationship tmp_dict)

/-- The inner `for info in family_recs` loop. -/
def processMembers (sectionLabel : Option String) (ret : RelDict) :
    List MemberItem → Except PyExc RelDict
  | [] => .ok ret
  | info :: rest => do
    let ret' ← processMember sectionLabel ret info
    processMembers sectionLabel ret' rest

/-- The outer `for records in page_info` loop. -/
def processSections (ret : RelDict) : List PageSection → Except PyExc RelDict
  | [] => .ok ret
  | records :: rest => do
    let ret' ← processMembers records.label ret records.members
    processSections ret' rest

/-- `parse_page_info(page_info)`: group member entries by their section's
(trimmed) label, merging into an existing label's dict when the label
was already seen. -/
def parse_page_info (page_info : List PageSection) : Except PyExc RelDict :=
  processSections [] page_info

/-! ### `get_birth_death_records` and the parsed page -/

/-- The outcome of one of the two container chains of
`get_birth_death_records`: the chain raises partway
(`AttributeError`/`KeyError`/`ValueError`), resolves but the final
`find('dl', ...)` returns `None`, or resolves to the `dl` element
(its `dd` children). -/
inductive ChainResult where
  | raises
  | noneFound
  | found (dds : List DDRecord)
  deriving DecidableEq, Repr

/-- A parsed memorial page, represented by the results of the fixed
queries `get_info` and its helpers perform on it: the text reached by
`get_name`'s container chain (`none` when some link is missing, so the
final `.text` access raises `AttributeError`), the outcomes of the
primary (`promod`) and alternate birth/death container chains, and the
`div.col-12 col-sm-6 col-print-auto` relationship sections. -/
structure Page where
  h1 : Option String
  bdPrimary : ChainResult
  bdAlternate : ChainResult
  sections : List PageSection
  deriving DecidableEq, Repr

/-- `get_name` as called on a whole page: the chain failing to resolve
raises `AttributeError`; otherwise the `h1` text is cleaned up. -/
def get_name_of_page (page : Page) : Except PyExc String :=
  match page.h1 with
  | none => .error PyExc.attributeError
  | some t => .ok (get_name t)

/-- `get_birth_death_records(web_data)`: try the primary chain; if it
raises, try the alternate chain (whose failure propagates); a chain
whose final `find` returns `None` yields `None`. -/
def get_birth_death_records (page : Page) :
    Except PyExc (Option (List DDRecord)) :=
  match page.bdPrimary with
  | .found l => .ok (some l)
  | .noneFound => .ok none
  | .raises =>
    match page.bdAlternate with
    | .found l => .ok (some l)
    | .noneFound => .ok none
    | .raises => .error PyExc.attributeError

/-- `get_birth_record` as called by `get_info` on the result of
`get_birth_death_records`: `None.find_all('dd')` raises
`AttributeError` (uncaught — the `try` is inside the loop). -/
def get_birth_record_of (bd : Option (List DDRecord)) : Except PyExc FactDict :=
  match bd with
  | none => .error PyExc.attributeError
  | some bio => .ok (get_birth_record bio)

/-- `get_death_record` as called by `get_info`, symmetric. -/
def get_death_record_of (bd : Option (List DDRecord)) : Except PyExc FactDict :=
  match bd with
  | none => .error PyExc.attributeError
  | some bio => .ok (get_death_record bio)

/-! ### `get_next_parent` -/

/-- A value of the per-person record dict: the `Birth_Info`/`Death_Info`
fact dicts, or a relationship group's member dict. -/
inductive RecValue where
  | facts (d : FactDict)
  | group (g : MemberDict)
  deriving DecidableEq, Repr

/-- A person's assembled record: a Python dict holding `Birth_Info`,
`Death_Info` and one key per relationship label. -/
abbrev PersonRecord := List (String × RecValue)

/-- The store: person name ↦ `PersonRecord`, in insertion order. -/
abbrev Store := List (String × PersonRecord)

/-- Python `s.split(sep, maxsplit)` for a one-character separator:
`splits` is the number of splits still allowed. -/
def pySplitAux (sep : Char) : List Char → Nat → List Char → List String
  | [], _, acc => [String.mk acc.reverse]
  | c :: rest, 0, acc => [String.mk (acc.reverse ++ c :: rest)]
  | c :: rest, n + 1, acc =>
    if c = sep then String.mk acc.reverse :: pySplitAux sep rest n []
    else pySplitAux sep rest (n + 1) (c :: acc)

/-- `url.split('/', 3)`. -/
def pySplitSlash3 (s : String) : List String :=
  pySplitAux '/' s.data 3 []

/-- `val['url'].split('/', 3)[2]` for one parent entry: list indexing
out of range raises `IndexError`. -/
def parentSegment (val : Member) : Except PyExc String :=
  match (pySplitSlash3 val.url).get? 2 with
  | none => .error PyExc.indexError
  | some seg => .ok seg

/-- The `for _key, val in person_rec['Parents'].items()` loop. -/
def parentLoop (parent_lst : List String) :
    List (String × Member) → Except PyExc (List String)
  | [] => .ok parent_lst
  | (_, val) :: rest => do
    let seg ← parentSegment val
    parentLoop (parent_lst ++ [seg]) rest

/-- `get_next_parent(person_rec)`: when no `'Parents'` key is present the
result is `[]`; when it maps to a relationship group, each member's
identifier is the third `/`-segment of its url.  (Should `'Parents'` map
to a fact dict, `val['url']` would index a `str` with a `str`, a
`TypeError`.) -/
def get_next_parent (person_rec : PersonRecord) : Except PyExc (List String) :=
  match dlookup person_rec "Parents" with
  | none => .ok []
  | some (.facts _) =>
    .error (PyExc.typeError "string indices must be integers")
  | some (.group g) => parentLoop [] g

/-! ### `get_info` and the output artifact -/

/-- The external collaborators of one traversal run: the HTTP transport
(`requests.get` on a full url) and the markup parser
(`BeautifulSoup(text, 'lxml')`). -/
structure Env where
  http : String → Except String Response
  parse : String → Page

/-- The record assembled by `get_info` for one page: `Birth_Info` and
`Death_Info` are set first, then the relationship dict is merged in
with `update`. -/
def assembleRecord (birth death : FactDict) (rels : RelDict) : PersonRecord :=
  dictUpdate [("Birth_Info", RecValue.facts birth),
              ("Death_Info", RecValue.facts death)]
    (rels.map (fun p => (p.1, RecValue.group p.2)))

mutual

/-- `get_info(rec_num, grave_url, ret_dict)`: fetch, parse, extract name
and facts, merge `{name: record}` into the store, then recurse on each
derived parent identifier.  Errors carry the store as mutated so far
(the Python code mutates `ret_dict` in place); `fuel` bounds the
recursion depth, exhaustion standing for Python's `RecursionError`. -/
def get_info (env : Env) : Nat → String → String → Store →
    Except (PyExc × Store) Store
  | 0, _, _, st => .error (PyExc.recursionError, st)
  | fuel + 1, rec_num, grave_url, st =>
    match get_grave_by_id env.http grave_url rec_num with
    | .error e => .error (e, st)
    | .ok person_info =>
      let soup := env.parse person_info
      match get_name_of_page soup with
      | .error e => .error (e, st)
      | .ok name =>
        match get_birth_death_records soup with
        | .error e => .error (e, st)
        | .ok b_d_records =>
          match get_birth_record_of b_d_records with
          | .error e => .error (e, st)
          | .ok birth =>
            match get_death_record_of b_d_records with
            | .error e => .error (e, st)
            | .ok death =>
              match parse_page_info soup.sections with
              | .error e => .error (e, st)
              | .ok rels =>
                let recd := assembleRecord birth death rels
                let st' := dictSet st name recd
                match get_next_parent recd with
                | .error e => .error (e, st')
                | .ok next_gen => get_info_children env fuel next_gen grave_url st'
termination_by fuel _ _ _ => (fuel, 0)

/-- The `for record in next_gen` loop of `get_info`. -/
def get_info_children (env : Env) : Nat → List String → String → Store →
    Except (PyExc × Store) Store
  | _, [], _, st => .ok st
  | fuel, record :: rest, grave_url, st =>
    match get_info env fuel record grave_url st with
    | .error e => .error e
    | .ok st' => get_info_children env fuel rest grave_url st'
termination_by fuel l _ _ => (fuel, l.length + 1)

end

/-- The output artifact written at the end of the run:
`[{i: grave_info[i]} for i in grave_info]` — a JSON array of single-key
objects, in the store's iteration order.  (`grave_info[i]` is the dict
lookup; `[]` stands in for the impossible miss, as `i` ranges over the
store's own keys.) -/
def output_array (grave_info : Store) : List (List (String × PersonRecord)) :=
  (dkeys grave_info).map (fun i => [(i, (dlookup grave_info i).getD [])])

/-! ### Specification-side definitions

These definitions transcribe the wording of the specification (not the
code); each claim's theorem compares the code-derived functions above
against them. -/

/-- `a` if present, else `b` (`Option` fallback, written out for easy
case analysis). -/
def oelse {α : Type} (a b : Option α) : Option α :=
  match a with
  | some x => some x
  | none => b

/-- The trimmed text of the *last* `dd` child whose birth-date lookup
resolves (the code's scan keeps overwriting). -/
def lastBirthDate : List DDRecord → Option String
  | [] => none
  | r :: t => oelse (lastBirthDate t) (r.birthDate.map pyStrip)

/-- The trimmed birth place of the last `dd` child where the birth date
resolves and the birth place also resolves. -/
def lastBirthBothPlace : List DDRecord → Option String
  | [] => none
  | r :: t =>
    oelse (lastBirthBothPlace t)
      (if r.birthDate.isSome then r.birthPlace.map pyStrip else none)

/-- Death analogue of `lastBirthDate`. -/
def lastDeathDate : List DDRecord → Option String
  | [] => none
  | r :: t => oelse (lastDeathDate t) (r.deathDate.map pyStrip)

/-- Death analogue of `lastBirthBothPlace`. -/
def lastDeathBothPlace : List DDRecord → Option String
  | [] => none
  | r :: t =>
    oelse (lastDeathBothPlace t)
      (if r.deathDate.isSome then r.deathPlace.map pyStrip else none)

/-- Spec-side: the trimmed date and place of the *first* child record
where both the date-marked and the place-marked element resolve — the
behaviour the specification describes for `extract_birth_fact`. -/
def firstBirthBoth : List DDRecord → Option (String × String)
  | [] => none
  | r :: t =>
    match r.birthDate, r.birthPlace with
    | some d, some p => some (pyStrip d, pyStrip p)
    | _, _ => firstBirthBoth t

/-- Spec-side: collapse every run of *whitespace* (not just spaces) to a
single space — the transformation the specification ascribes to
`extract_name`. -/
def collapseWhitespaceGo : Bool → List Char → List Char
  | _, [] => []
  | prevSpace, c :: rest =>
    if c.isWhitespace then
      if prevSpace then collapseWhitespaceGo true rest
      else ' ' :: collapseWhitespaceGo true rest
    else c :: collapseWhitespaceGo false rest

/-- Spec-side `extract_name`: the heading's *trimmed* text with every
run of whitespace collapsed to one space and `"VVeteran"` replaced. -/
def claimed_extract_name (h1text : String) : String :=
  String.mk (replaceVV (collapseWhitespaceGo false (pyStrip h1text).data))

/-- Is the first character a space? -/
def headSpace : List Char → Bool
  | [] => false
  | c :: _ => c = ' '

/-- Does the text contain two adjacent space characters? -/
def hasDoubleSpace : List Char → Bool
  | [] => false
  | c :: rest => (c = ' ' && headSpace rest) || hasDoubleSpace rest

/-- All `(section label, member item)` pairs of a page's relationship
sections, in processing order. -/
def flattenSections (sections : List PageSection) : List (Option String × MemberItem) :=
  sections.flatMap (fun s => s.members.map (fun m => (s.label, m)))

/-- A `(label, member item)` pair whose mandatory lookups all resolve. -/
def entryWF (e : Option String × MemberItem) : Prop :=
  e.1.isSome = true ∧ e.2.h3text.isSome = true ∧ e.2.dataHref.isSome = true

instance (e : Option String × MemberItem) : Decidable (entryWF e) := by
  unfold entryWF; infer_instance

/-- The relationship label an entry is bucketed under (trimmed). -/
def entryLabel (e : Option String × MemberItem) : String :=
  pyStrip (e.1.getD "")

/-- The related-person name an entry is keyed by (trimmed). -/
def entryName (e : Option String × MemberItem) : String :=
  pyStrip (e.2.h3text.getD "")

/-- The `Member` value an entry contributes: the `data-href` url and the
individually defaulted birth/death dates. -/
def entryMember (e : Option String × MemberItem) : Member :=
  ⟨e.2.dataHref.getD "",
   (e.2.birthDate.map pyStrip).getD defaultDate,
   (e.2.deathDate.map pyStrip).getD defaultDate⟩

/-- The member contributed by the textually last entry carrying the
given label and name — the expected content of the result dict under
last-write-wins merging. -/
def lastEntry : List (Option String × MemberItem) → String → String → Option Member
  | [], _, _ => none
  | e :: t, L, N =>
    oelse (lastEntry t L N)
      (if entryLabel e = L ∧ entryName e = N then some (entryMember e) else none)

/-- Two-level lookup in a relationship dict: label, then name. -/
def lookup2 (d : RelDict) (L N : String) : Option Member :=
  match dlookup d L with
  | none => none
  | some inner => dlookup inner N

/-- The merge `parse_page_info` performs for one member entry: add the
member into the label's existing inner dict, or open a new label. -/
def insertEntry (ret : RelDict) (L N : String) (m : Member) : RelDict :=
  match dlookup ret L with
  | some inner => dictSet ret L (dictUpdate inner [(N, m)])
  | none => dictSet ret L [(N, m)]

/-- `parse_page_info`'s loops, re-expressed over the flattened
`(label, member item)` entry list. -/
def processEntries (ret : RelDict) : List (Option String × MemberItem) → Except PyExc RelDict
  | [] => .ok ret
  | e :: t =>
    match processMember e.1 ret e.2 with
    | .error exc => .error exc
    | .ok ret' => processEntries ret' t

/-- The store an execution of `get_info` left behind, whether it
returned normally or raised (the Python code mutates `ret_dict` in
place, so the store's final state is observable either way). -/
def resultStore (res : Except (PyExc × Store) Store) : Store :=
  match res with
  | .ok st => st
  | .error (_, st) => st

/-! ## Helper lemmas -/

theorem oelse_assoc {α : Type} (a b c : Option α) :
    oelse (oelse a b) c = oelse a (oelse b c) := by
  cases a <;> rfl

theorem oelse_none_right {α : Type} (a : Option α) : oelse a none = a := by
  cases a <;> rfl

theorem dlookup_dictSet_self {β : Type} (d : List (String × β)) (k : String)
    (v : β) : dlookup (dictSet d k v) k = some v := by
  induction d with
  | nil => simp [dictSet, dlookup]
  | cons p rest ih =>
    by_cases h : p.1 = k
    · simp [dictSet, dlookup, h]
    · simp [dictSet, dlookup, h, ih]

theorem dlookup_dictSet_ne {β : Type} (d : List (String × β)) (k k' : String)
    (v : β) (h : k' ≠ k) : dlookup (dictSet d k v) k' = dlookup d k' := by
  have hk : ¬k = k' := fun hh => h hh.symm
  induction d with
  | nil => simp [dictSet, dlookup, hk]
  | cons p rest ih =>
    by_cases hp : p.1 = k
    · have hp' : ¬p.1 = k' := by rw [hp]; exact hk
      simp only [dictSet, if_pos hp, dlookup, if_neg hk, if_neg hp']
    · simp only [dictSet, if_neg hp, dlookup]
      by_cases hp' : p.1 = k'
      · simp [hp']
      · simp [hp', ih]

theorem dlookup_dictSet_cases {β : Type} (d : List (String × β))
    (k n : String) (v r : β) (h : dlookup (dictSet d k v) n = some r) :
    (n = k ∧ r = v) ∨ dlookup d n = some r := by
  by_cases hk : n = k
  · subst hk
    rw [dlookup_dictSet_self] at h
    exact Or.inl ⟨rfl, (Option.some_injective _ h).symm⟩
  · rw [dlookup_dictSet_ne _ _ _ _ hk] at h
    exact Or.inr h

theorem dlookup_isSome_dictSet {β : Type} (d : List (String × β))
    (k n : String) (v : β) (h : (dlookup d n).isSome = true) :
    (dlookup (dictSet d k v) n).isSome = true := by
  by_cases hk : n = k
  · subst hk; rw [dlookup_dictSet_self]; rfl
  · rw [dlookup_dictSet_ne _ _ _ _ hk]; exact h

theorem dlookup_isSome_dictUpdate {β : Type} (other : List (String × β)) :
    ∀ (d : List (String × β)) (n : String),
      (dlookup d n).isSome = true →
      (dlookup (dictUpdate d other) n).isSome = true := by
  induction other with
  | nil => intro d n h; simpa [dictUpdate] using h
  | cons p rest ih =>
    intro d n h
    have : dictUpdate d (p :: rest) = dictUpdate (dictSet d p.1 p.2) rest := by
      simp [dictUpdate]
    rw [this]
    exact ih _ _ (dlookup_isSome_dictSet _ _ _ _ h)

theorem dkeys_dictSet {β : Type} (d : List (String × β)) (k : String) (v : β) :
    dkeys (dictSet d k v) =
      if k ∈ dkeys d then dkeys d else dkeys d ++ [k] := by
  induction d with
  | nil => simp [dictSet, dkeys]
  | cons p rest ih =>
    by_cases h : p.1 = k
    · subst h
      simp [dictSet, dkeys]
    · have hne : ¬k = p.1 := fun hh => h hh.symm
      have hmem : (k ∈ dkeys (p :: rest)) = (k ∈ dkeys rest) := by
        simp [dkeys, hne]
      simp only [dictSet, if_neg h, dkeys, List.map_cons, hmem]
      have ih' : List.map (fun x => x.1) (dictSet rest k v) =
          if k ∈ dkeys rest then dkeys rest else dkeys rest ++ [k] := ih
      rw [ih']
      by_cases hm : k ∈ dkeys rest
      · simp only [if_pos hm]
        have hck : k ∈ p.1 :: List.map (fun x => x.1) rest :=
          List.mem_cons_of_mem _ hm
        simp only [dkeys]
        rw [if_pos hck]
      · simp only [if_neg hm]
        have hc : ¬(k ∈ p.1 :: List.map (fun x => x.1) rest) := by
          intro hmm
          rcases List.mem_cons.mp hmm with h1 | h2
          · exact hne h1
          · exact hm h2
        simp only [dkeys]
        rw [if_neg hc]
        exact rfl

theorem dlookup_self_of_nodup {β : Type} (d : List (String × β))
    (hnd : (dkeys d).Nodup) : ∀ p ∈ d, dlookup d p.1 = some p.2 := by
  induction d with
  | nil => intro p hp; cases hp
  | cons q rest ih =>
    intro p hp
    rcases List.mem_cons.mp hp with hq | hrest
    · subst hq; simp [dlookup]
    · have hq1 : ¬q.1 = p.1 := by
        intro he
        have : p.1 ∈ dkeys rest := List.mem_map.mpr ⟨p, hrest, rfl⟩
        rw [← he] at this
        exact (List.nodup_cons.mp (by simpa [dkeys] using hnd)).1 this
      simp only [dlookup, if_neg hq1]
      exact ih (List.nodup_cons.mp (by simpa [dkeys] using hnd)).2 p hrest

/-! ## C1: birth/death fact extraction -/

theorem birthStep_date (acc : FactDict) (r : DDRecord) :
    (birthStep acc r).date = oelse (r.birthDate.map pyStrip) acc.date := by
  cases hb : r.birthDate <;> cases hp : r.birthPlace <;>
    simp [birthStep, hb, hp, oelse]

theorem birthStep_place (acc : FactDict) (r : DDRecord) :
    (birthStep acc r).place =
      oelse (if r.birthDate.isSome then r.birthPlace.map pyStrip else none)
        acc.place := by
  cases hb : r.birthDate <;> cases hp : r.birthPlace <;>
    simp [birthStep, hb, hp, oelse]

theorem deathStep_date (acc : FactDict) (r : DDRecord) :
    (deathStep acc r).date = oelse (r.deathDate.map pyStrip) acc.date := by
  cases hb : r.deathDate <;> cases hp : r.deathPlace <;>
    simp [deathStep, hb, hp, oelse]

theorem deathStep_place (acc : FactDict) (r : DDRecord) :
    (deathStep acc r).place =
      oelse (if r.deathDate.isSome then r.deathPlace.map pyStrip else none)
        acc.place := by
  cases hb : r.deathDate <;> cases hp : r.deathPlace <;>
    simp [deathStep, hb, hp, oelse]

theorem birthScan_date (l : List DDRecord) :
    ∀ acc, (birthScan l acc).date = oelse (lastBirthDate l) acc.date := by
  induction l with
  | nil => intro acc; simp [birthScan, lastBirthDate, oelse]
  | cons r t ih =>
    intro acc
    simp only [birthScan, lastBirthDate]
    rw [ih, birthStep_date, oelse_assoc]

theorem birthScan_place (l : List DDRecord) :
    ∀ acc, (birthScan l acc).place = oelse (lastBirthBothPlace l) acc.place := by
  induction l with
  | nil => intro acc; simp [birthScan, lastBirthBothPlace, oelse]
  | cons r t ih =>
    intro acc
    simp only [birthScan, lastBirthBothPlace]
    rw [ih, birthStep_place, oelse_assoc]

theorem deathScan_date (l : List DDRecord) :
    ∀ acc, (deathScan l acc).date = oelse (lastDeathDate l) acc.date := by
  induction l with
  | nil => intro acc; simp [deathScan, lastDeathDate, oelse]
  | cons r t ih =>
    intro acc
    simp only [deathScan, lastDeathDate]
    rw [ih, deathStep_date, oelse_assoc]

theorem deathScan_place (l : List DDRecord) :
    ∀ acc, (deathScan l acc).place = oelse (lastDeathBothPlace l) acc.place := by
  induction l with
  | nil => intro acc; simp [deathScan, lastDeathBothPlace, oelse]
  | cons r t ih =>
    intro acc
    simp only [deathScan, lastDeathBothPlace]
    rw [ih, deathStep_place, oelse_assoc]

/-- C1 (amended): `get_birth_record`/`get_death_record` scan *every* dd
child of the container, never raise, and fill each result key by
last-write-wins: the date key holds the trimmed date of the last child
whose date lookup resolved (even when that child's place lookup then
failed), and the place key holds the trimmed place of the last child
where the date and the place both resolved; so the result has zero, one
or two keys, but it is the last resolving child, not the first, whose
text is captured. -/
theorem c1_fact_extraction_is_last_write_wins (bio : List DDRecord) :
    (get_birth_record bio).date = lastBirthDate bio ∧
    (get_birth_record bio).place = lastBirthBothPlace bio ∧
    (get_death_record bio).date = lastDeathDate bio ∧
    (get_death_record bio).place = lastDeathBothPlace bio := by
  refine ⟨?_, ?_, ?_, ?_⟩
  · rw [get_birth_record, birthScan_date]
    exact oelse_none_right _
  · rw [get_birth_record, birthScan_place]
    exact oelse_none_right _
  · rw [get_death_record, deathScan_date]
    exact oelse_none_right _
  · rw [get_death_record, deathScan_place]
    exact oelse_none_right _

/-- C1 counterexample: on a container with two fully resolving children,
the claim says the *first* child's trimmed texts are captured
(`"1 Jan 1900"`, `"Springfield"`), but `get_birth_record` returns the
second child's texts. -/
theorem c1_counterexample_first_child_not_kept :
    firstBirthBoth
        [⟨some "1 Jan 1900", some "Springfield", none, none⟩,
         ⟨some "2 Feb 1901", some "Shelbyville", none, none⟩] =
      some ("1 Jan 1900", "Springfield") ∧
    get_birth_record
        [⟨some "1 Jan 1900", some "Springfield", none, none⟩,
         ⟨some "2 Feb 1901", some "Shelbyville", none, none⟩] ≠
      ⟨some "1 Jan 1900", some "Springfield"⟩ := by
  refine ⟨rfl, ?_⟩
  decide

/-! ## C2: `get_grave_by_id` failure behaviour -/

/-- C2 (code evaluated at the failing inputs): on a transport error or
a 4xx/5xx status, `get_grave_by_id` does *not* propagate a fetch error
carrying the underlying cause — the `raise f'...'` statement raises a
`str`, so Python 3 raises `TypeError(raiseStrMsg)`, one constant value
in which the cause does not appear; on a 2xx response the body text is
returned.  No retry is performed (a single transport call is made). -/
theorem c2_fetch_failure_raises_typeerror_without_cause
    (http : String → Except String Response) (base_url id_number : String) :
    (∀ msg, http (base_url ++ id_number) = .error msg →
      get_grave_by_id http base_url id_number =
        .error (PyExc.typeError raiseStrMsg)) ∧
    (∀ r, http (base_url ++ id_number) = .ok r →
      400 ≤ r.status → r.status < 600 →
      get_grave_by_id http base_url id_number =
        .error (PyExc.typeError raiseStrMsg)) ∧
    (∀ r, http (base_url ++ id_number) = .ok r →
      200 ≤ r.status → r.status < 300 →
      get_grave_by_id http base_url id_number = .ok r.text) := by
  refine ⟨?_, ?_, ?_⟩
  · intro msg h
    simp [get_grave_by_id, h]
  · intro r h h4 h6
    simp [get_grave_by_id, h, raise_for_status, h4, h6]
  · intro r h _ h3
    have : ¬(400 ≤ r.status ∧ r.status < 600) := by omega
    simp [get_grave_by_id, h, raise_for_status, this]

/-- Witness for C2's theorem at a concrete failing transport and a
concrete 404 response. -/
theorem c2_witness :
    get_grave_by_id (fun _ => .error "connection refused") "url" "42" =
      .error (PyExc.typeError raiseStrMsg) ∧
    get_grave_by_id (fun _ => .ok ⟨404, "not found"⟩) "url" "42" =
      .error (PyExc.typeError raiseStrMsg) ∧
    get_grave_by_id (fun _ => .ok ⟨200, "body"⟩) "url" "42" = .ok "body" :=
  ⟨(c2_fetch_failure_raises_typeerror_without_cause
      (fun _ => .error "connection refused") "url" "42").1
        "connection refused" rfl,
   (c2_fetch_failure_raises_typeerror_without_cause
      (fun _ => .ok ⟨404, "not found"⟩) "url" "42").2.1
        ⟨404, "not found"⟩ rfl (by decide) (by decide),
   (c2_fetch_failure_raises_typeerror_without_cause
      (fun _ => .ok ⟨200, "body"⟩) "url" "42").2.2
        ⟨200, "body"⟩ rfl (by decide) (by decide)⟩

/-! ## C7: root fetch failure leaves the store untouched -/

/-- C7: when the very first fetch of a traversal fails (transport error
or 4xx/5xx status), `get_info` aborts before reaching the store-merge
step, and the store it hands back with the exception is exactly the
store passed in — in particular still empty when the run started with
an empty store. -/
theorem c7_root_fetch_failure_leaves_store_untouched
    (env : Env) (fuel : Nat) (root grave_url : String) (st : Store) :
    (∀ msg, env.http (grave_url ++ root) = .error msg →
      get_info env (fuel + 1) root grave_url st =
        .error (PyExc.typeError raiseStrMsg, st)) ∧
    (∀ r, env.http (grave_url ++ root) = .ok r →
      400 ≤ r.status → r.status < 600 →
      get_info env (fuel + 1) root grave_url st =
        .error (PyExc.typeError raiseStrMsg, st)) := by
  constructor
  · intro msg h
    simp [get_info, get_grave_by_id, h]
  · intro r h h4 h6
    simp [get_info, get_grave_by_id, h, raise_for_status, h4, h6]

/-- Witness for C7's theorem: a transport that always fails, run on the
empty store. -/
theorem c7_witness :
    get_info ⟨fun _ => .error "boom", fun _ => ⟨none, .raises, .raises, []⟩⟩
        1 "120297053" "url" [] =
      .error (PyExc.typeError raiseStrMsg, []) :=
  (c7_root_fetch_failure_leaves_store_untouched
      ⟨fun _ => .error "boom", fun _ => ⟨none, .raises, .raises, []⟩⟩
      0 "120297053" "url" []).1 "boom" rfl

/-! ## C10: mandatory member fields in `parse_page_info` -/

/-- C10: within `parse_page_info`, a member entry's `h3` heading and
`data-href` attribute are mandatory — an entry lacking the heading makes
the function raise `AttributeError`, and an entry lacking the attribute
makes it raise `KeyError`, rather than defaulting or skipping the
entry (only the two dates are defaulted, see C6). -/
theorem c10_name_and_link_are_mandatory :
    (∀ (href b d : Option String) (rest : List MemberItem)
        (sections : List PageSection) (lbl : Option String),
      parse_page_info
          ({ members := ⟨none, href, b, d⟩ :: rest, label := lbl } :: sections) =
        .error PyExc.attributeError) ∧
    (∀ (nm : String) (b d : Option String) (rest : List MemberItem)
        (sections : List PageSection) (lbl : Option String),
      parse_page_info
          ({ members := ⟨some nm, none, b, d⟩ :: rest, label := lbl } :: sections) =
        .error PyExc.keyError) := by
  constructor
  · intro href b d rest sections lbl
    rfl
  · intro nm b d rest sections lbl
    rfl

/-! ## C3: `get_name` cleanup -/

theorem collapseSpacesGo_spec (l : List Char) : ∀ prev : Bool,
    hasDoubleSpace (collapseSpacesGo prev l) = false ∧
    (prev = true → headSpace (collapseSpacesGo prev l) = false) := by
  induction l with
  | nil => intro prev; simp [collapseSpacesGo, hasDoubleSpace, headSpace]
  | cons c rest ih =>
    intro prev
    by_cases hc : c = ' '
    · subst hc
      cases prev with
      | true =>
        have hred : collapseSpacesGo true (' ' :: rest) =
            collapseSpacesGo true rest := rfl
        rw [hred]
        exact ⟨(ih true).1, fun _ => (ih true).2 rfl⟩
      | false =>
        have hred : collapseSpacesGo false (' ' :: rest) =
            ' ' :: collapseSpacesGo true rest := rfl
        rw [hred]
        constructor
        · simp [hasDoubleSpace, (ih true).1, (ih true).2 rfl]
        · intro h; exact Bool.noConfusion h
    · have hred : collapseSpacesGo prev (c :: rest) =
          c :: collapseSpacesGo false rest := by
        simp [collapseSpacesGo, hc]
      rw [hred]
      constructor
      · simp [hasDoubleSpace, (ih false).1, hc]
      · intro _; simp [headSpace, hc]

theorem replaceVV_headSpace (l : List Char) :
    headSpace (replaceVV l) = headSpace l := by
  induction l using replaceVV.induct with
  | case1 rest ih => simp [replaceVV, headSpace]
  | case2 c rest hno ih => simp [replaceVV, headSpace]
  | case3 => simp [replaceVV]

theorem replaceVV_no_double_space (l : List Char)
    (h : hasDoubleSpace l = false) :
    hasDoubleSpace (replaceVV l) = false := by
  induction l using replaceVV.induct with
  | case1 rest ih =>
    have hrest : hasDoubleSpace rest = false := by
      simpa [hasDoubleSpace, headSpace] using h
    have hred :
        replaceVV ('V' :: 'V' :: 'e' :: 't' :: 'e' :: 'r' :: 'a' :: 'n' :: rest) =
          'V' :: 'e' :: 't' :: 'e' :: 'r' :: 'a' :: 'n' :: replaceVV rest := rfl
    rw [hred]
    simp [hasDoubleSpace, headSpace, ih hrest]
  | case2 c rest hno ih =>
    have hparts := h
    simp only [hasDoubleSpace, Bool.or_eq_false_iff] at hparts
    have hred : replaceVV (c :: rest) = c :: replaceVV rest := by
      simp [replaceVV]
    rw [hred]
    simp only [hasDoubleSpace, Bool.or_eq_false_iff]
    refine ⟨?_, ih hparts.2⟩
    rw [replaceVV_headSpace]
    exact hparts.1
  | case3 =>
    have hred : replaceVV [] = [] := rfl
    rw [hred]
    exact h

theorem collapseSpaces_ne_nil (l : List Char) (h : l ≠ []) :
    collapseSpaces l ≠ [] := by
  match l with
  | [] => exact absurd rfl h
  | c :: rest =>
    by_cases hc : c = ' '
    · subst hc
      have hred : collapseSpaces (' ' :: rest) =
          ' ' :: collapseSpacesGo true rest := rfl
      rw [hred]
      simp
    · have hred : collapseSpaces (c :: rest) =
          c :: collapseSpacesGo false rest := by
        simp [collapseSpaces, collapseSpacesGo, hc]
      rw [hred]
      simp

theorem replaceVV_ne_nil (l : List Char) (h : l ≠ []) : replaceVV l ≠ [] := by
  induction l using replaceVV.induct with
  | case1 rest ih => simp [replaceVV]
  | case2 c rest hno ih => simp [replaceVV]
  | case3 => exact absurd rfl h

/-- C3 (amended): for every page whose name-heading chain resolves,
`get_name` returns the heading's text with every run of *space
characters* collapsed to a single space and `"VVeteran"` replaced by
`"Veteran"` left to right; the text is *not* trimmed and non-space
whitespace is untouched.  The result contains no internal double-spaces
and is non-empty whenever the heading text is non-empty. -/
theorem c3_name_collapses_spaces_untrimmed :
    (∀ s : String,
      hasDoubleSpace (get_name s).data = false ∧
      (s ≠ "" → get_name s ≠ "")) ∧
    get_name " VVeteran  Soldier " = " Veteran Soldier " := by
  constructor
  · intro s
    constructor
    · exact replaceVV_no_double_space _ (collapseSpacesGo_spec s.data false).1
    · intro hs hcontra
      have hdata : s.data ≠ [] := fun hd => hs (String.ext hd)
      have : (get_name s).data = [] := by rw [hcontra]
      exact replaceVV_ne_nil _ (collapseSpaces_ne_nil _ hdata) this
  · rfl

/-- Witness for C3's theorem at a concrete non-empty heading text. -/
theorem c3_witness : get_name "John  Doe" ≠ "" :=
  (c3_name_collapses_spaces_untrimmed.1 "John  Doe").2 (by decide)

/-- C3 counterexample: on the heading text `"  A\nB"` the claim's
transformation (trim, then collapse all whitespace runs) yields
`"A B"`, but `get_name` returns `" A\nB"` — untrimmed, newline intact:
the claim's "trimmed text with every run of whitespace collapsed" is
false of the code. -/
theorem c3_counterexample_untrimmed_newline_kept :
    get_name "  A\nB" = " A\nB" ∧
    claimed_extract_name "  A\nB" = "A B" ∧
    get_name "  A\nB" ≠ claimed_extract_name "  A\nB" := by
  refine ⟨rfl, rfl, ?_⟩
  decide

/-! ## C4: parent identifier derivation -/

theorem parentSegment_ok (val : Member)
    (h : 2 < (pySplitSlash3 val.url).length) :
    parentSegment val = .ok ((pySplitSlash3 val.url).getD 2 "") := by
  rcases hl : pySplitSlash3 val.url with _ | ⟨a, _ | ⟨b, _ | ⟨c, t⟩⟩⟩
  · rw [hl] at h; simp at h
  · rw [hl] at h; simp at h
  · rw [hl] at h; simp at h
  · simp [parentSegment, hl]

theorem parentLoop_ok (g : List (String × Member)) : ∀ acc,
    (∀ m ∈ g, 2 < (pySplitSlash3 m.2.url).length) →
    parentLoop acc g =
      .ok (acc ++ g.map (fun m => (pySplitSlash3 m.2.url).getD 2 "")) := by
  induction g with
  | nil => intro acc _; simp [parentLoop]
  | cons p t ih =>
    intro acc h
    have hp := h p (List.mem_cons_self _ _)
    obtain ⟨k, val⟩ := p
    simp only [parentLoop]
    rw [parentSegment_ok val hp]
    have hbind : (do
        let seg ← (Except.ok ((pySplitSlash3 val.url).getD 2 "") :
          Except PyExc String)
        parentLoop (acc ++ [seg]) t) =
        parentLoop (acc ++ [(pySplitSlash3 val.url).getD 2 ""]) t := rfl
    rw [hbind, ih _ (fun m hm => h m (List.mem_cons_of_mem _ hm))]
    simp

/-- C4: `get_next_parent` derives the next identifiers from the
`"Parents"` group by splitting each member's link on `/` (with Python's
`maxsplit=3`) and taking the segment at index 2 — so the link
`/memorial/123456789/john-doe` yields `123456789`; a record without a
`"Parents"` key yields `[]`, and inside `get_info` the derived list
being empty is exactly the case in which no recursive call is made
(with minimal fuel, an empty derived list returns normally while a
non-empty one recurses and exhausts the fuel). -/
theorem c4_next_parent_derivation :
    (∀ person_rec : PersonRecord, dlookup person_rec "Parents" = none →
      get_next_parent person_rec = .ok []) ∧
    (∀ (person_rec : PersonRecord) (g : MemberDict),
      dlookup person_rec "Parents" = some (RecValue.group g) →
      (∀ m ∈ g, 2 < (pySplitSlash3 m.2.url).length) →
      get_next_parent person_rec =
        .ok (g.map (fun m => (pySplitSlash3 m.2.url).getD 2 ""))) ∧
    get_next_parent
        [("Parents", RecValue.group
            [("John Doe",
              ⟨"/memorial/123456789/john-doe", "1 Jan 1001", "1 Jan 1001"⟩)])] =
      .ok ["123456789"] ∧
    (∀ (env : Env) (grave_url rec_num : String) (st : Store)
        (body name : String) (bd : Option (List DDRecord))
        (birth death : FactDict) (rels : RelDict),
      get_grave_by_id env.http grave_url rec_num = .ok body →
      get_name_of_page (env.parse body) = .ok name →
      get_birth_death_records (env.parse body) = .ok bd →
      get_birth_record_of bd = .ok birth →
      get_death_record_of bd = .ok death →
      parse_page_info (env.parse body).sections = .ok rels →
      (get_next_parent (assembleRecord birth death rels) = .ok [] →
        get_info env 1 rec_num grave_url st =
          .ok (dictSet st name (assembleRecord birth death rels))) ∧
      (∀ p ps,
        get_next_parent (assembleRecord birth death rels) = .ok (p :: ps) →
        get_info env 1 rec_num grave_url st =
          .error (PyExc.recursionError,
            dictSet st name (assembleRecord birth death rels)))) := by
  refine ⟨?_, ?_, ?_, ?_⟩
  · intro pr h
    simp [get_next_parent, h]
  · intro pr g h hlen
    simp only [get_next_parent, h]
    rw [parentLoop_ok g [] hlen]
    simp
  · rfl
  · intro env grave_url rec_num st body name bd birth death rels
      h1 h2 h3 h4 h5 h6
    constructor
    · intro h7
      simp only [get_info, h1, h2, h3, h4, h5, h6, h7, get_info_children]
    · intro p ps h7
      simp only [get_info, h1, h2, h3, h4, h5, h6, h7, get_info_children]

/-- Witness for C4's theorem: a concrete record with a two-parent group,
and a concrete one-page traversal whose record has no parents, which
therefore terminates with minimal fuel. -/
theorem c4_witness :
    get_next_parent
        [("Spouse", RecValue.group []),
         ("Parents", RecValue.group
            [("A", ⟨"/memorial/111/a", "x", "y"⟩),
             ("B", ⟨"/memorial/222/b", "x", "y"⟩)])] =
      .ok ["111", "222"] ∧
    get_info
        ⟨fun _ => .ok ⟨200, "body"⟩,
         fun _ => ⟨some "John Doe", .found [], .raises, []⟩⟩
        1 "1" "u" [] =
      .ok (dictSet [] "John Doe"
        (assembleRecord ⟨none, none⟩ ⟨none, none⟩ [])) :=
  ⟨(c4_next_parent_derivation.2.1 _
      [("A", ⟨"/memorial/111/a", "x", "y"⟩),
       ("B", ⟨"/memorial/222/b", "x", "y"⟩)]
      rfl (by decide)),
   ((c4_next_parent_derivation.2.2.2
      ⟨fun _ => .ok ⟨200, "body"⟩,
       fun _ => ⟨some "John Doe", .found [], .raises, []⟩⟩
      "u" "1" [] "body" "John Doe" (some []) ⟨none, none⟩ ⟨none, none⟩ []
      rfl rfl rfl rfl rfl rfl).1 rfl)⟩

/-! ## C8: output artifact shape and order -/

/-- C8: the output artifact is the list of single-key objects
`{name: record}`, one per store entry, in the store's iteration order;
and the store's iteration order is insertion order of first-seen names
(`d[k] = v` keeps an existing key's position and appends a new key at
the end). -/
theorem c8_output_single_key_objects_in_store_order :
    (∀ st : Store, ∀ e ∈ output_array st, e.length = 1) ∧
    (∀ st : Store, (dkeys st).Nodup →
      output_array st = st.map (fun p => [p])) ∧
    (∀ (st : Store) (k : String) (v : PersonRecord),
      dkeys (dictSet st k v) =
        if k ∈ dkeys st then dkeys st else dkeys st ++ [k]) := by
  refine ⟨?_, ?_, fun st k v => dkeys_dictSet st k v⟩
  · intro st e he
    obtain ⟨i, _, rfl⟩ := List.mem_map.mp he
    rfl
  · intro st hnd
    unfold output_array dkeys
    rw [List.map_map]
    apply List.map_congr_left
    intro p hp
    have hlk := dlookup_self_of_nodup st hnd p hp
    simp [Function.comp, hlk]

/-- Witness for C8's theorem on a concrete two-person store. -/
theorem c8_witness :
    output_array [("Alice Doe", []), ("Bob Doe", [])] =
      [[("Alice Doe", [])], [("Bob Doe", [])]] := by
  have h := c8_output_single_key_objects_in_store_order.2.1
    [("Alice Doe", []), ("Bob Doe", [])] (by decide)
  rw [h]
  rfl

/-! ## C9: merged records always carry `Birth_Info` and `Death_Info` -/

theorem assembleRecord_has_info (b d : FactDict) (rels : RelDict) :
    (dlookup (assembleRecord b d rels) "Birth_Info").isSome = true ∧
    (dlookup (assembleRecord b d rels) "Death_Info").isSome = true := by
  constructor <;>
  · apply dlookup_isSome_dictUpdate
    rfl

theorem get_info_only_adds_full_records : ∀ fuel : Nat,
    (∀ (env : Env) (id url : String) (st : Store) (n : String)
        (r : PersonRecord),
      dlookup (resultStore (get_info env fuel id url st)) n = some r →
      dlookup st n = some r ∨
        ((dlookup r "Birth_Info").isSome = true ∧
         (dlookup r "Death_Info").isSome = true)) ∧
    (∀ (env : Env) (l : List String) (url : String) (st : Store) (n : String)
        (r : PersonRecord),
      dlookup (resultStore (get_info_children env fuel l url st)) n = some r →
      dlookup st n = some r ∨
        ((dlookup r "Birth_Info").isSome = true ∧
         (dlookup r "Death_Info").isSome = true)) := by
  intro fuel
  induction fuel using Nat.strong_induction_on with
  | _ fuel ihf =>
    have hA : ∀ (env : Env) (id url : String) (st : Store) (n : String)
        (r : PersonRecord),
        dlookup (resultStore (get_info env fuel id url st)) n = some r →
        dlookup st n = some r ∨
          ((dlookup r "Birth_Info").isSome = true ∧
           (dlookup r "Death_Info").isSome = true) := by
      intro env id url st n r h
      match fuel with
      | 0 =>
        simp only [get_info, resultStore] at h
        exact Or.inl h
      | f + 1 =>
        simp only [get_info] at h
        rcases h1 : get_grave_by_id env.http url id with e | body <;>
          simp only [h1, resultStore] at h
        · exact Or.inl h
        rcases h2 : get_name_of_page (env.parse body) with e | name <;>
          simp only [h2, resultStore] at h
        · exact Or.inl h
        rcases h3 : get_birth_death_records (env.parse body) with e | bd <;>
          simp only [h3, resultStore] at h
        · exact Or.inl h
        rcases h4 : get_birth_record_of bd with e | birth <;>
          simp only [h4, resultStore] at h
        · exact Or.inl h
        rcases h5 : get_death_record_of bd with e | death <;>
          simp only [h5, resultStore] at h
        · exact Or.inl h
        rcases h6 : parse_page_info (env.parse body).sections with e | rels <;>
          simp only [h6, resultStore] at h
        · exact Or.inl h
        rcases h7 : get_next_parent (assembleRecord birth death rels)
          with e | next <;> simp only [h7, resultStore] at h
        · rcases dlookup_dictSet_cases st name n
              (assembleRecord birth death rels) r h with ⟨_, hr⟩ | hin
          · subst hr
            exact Or.inr (assembleRecord_has_info birth death rels)
          · exact Or.inl hin
        · have hch := (ihf f (Nat.lt_succ_self f)).2 env next url
            (dictSet st name (assembleRecord birth death rels)) n r h
          rcases hch with hin | hgood
          · rcases dlookup_dictSet_cases st name n
                (assembleRecord birth death rels) r hin with ⟨_, hr⟩ | hin'
            · subst hr
              exact Or.inr (assembleRecord_has_info birth death rels)
            · exact Or.inl hin'
          · exact Or.inr hgood
    have hB : ∀ (env : Env) (l : List String) (url : String) (st : Store)
        (n : String) (r : PersonRecord),
        dlookup (resultStore (get_info_children env fuel l url st)) n = some r →
        dlookup st n = some r ∨
          ((dlookup r "Birth_Info").isSome = true ∧
           (dlookup r "Death_Info").isSome = true) := by
      intro env l
      induction l with
      | nil =>
        intro url st n r h
        simp only [get_info_children, resultStore] at h
        exact Or.inl h
      | cons p rest ihl =>
        intro url st n r h
        simp only [get_info_children] at h
        rcases hgi : get_info env fuel p url st with ⟨exc, st1⟩ | st1 <;>
          simp only [hgi, resultStore] at h
        · exact hA env p url st n r (by rw [hgi]; exact h)
        · have hrest := ihl url st1 n r h
          rcases hrest with hin | hgood
          · exact hA env p url st n r (by rw [hgi]; exact hin)
          · exact Or.inr hgood
    exact ⟨hA, hB⟩

/-- C9: every record `get_info` merges into the store carries both the
`Birth_Info` and the `Death_Info` key (each mapped to a — possibly
empty — dict): any name whose record is found in the store left behind
by a run (normal or aborted) was either already in the input store, or
its record has both keys. -/
theorem c9_merged_records_have_birth_death_info
    (env : Env) (fuel : Nat) (id url : String) (st : Store) (n : String)
    (r : PersonRecord)
    (h : dlookup (resultStore (get_info env fuel id url st)) n = some r) :
    dlookup st n = some r ∨
      ((dlookup r "Birth_Info").isSome = true ∧
       (dlookup r "Death_Info").isSome = true) :=
  (get_info_only_adds_full_records fuel).1 env id url st n r h

/-- Witness for C9's theorem: a one-page traversal from the empty store;
the single merged record is not in the (empty) input store, so the
theorem yields that it carries both keys. -/
theorem c9_witness :
    dlookup ([] : Store) "John Doe" =
        some (assembleRecord ⟨none, none⟩ ⟨none, none⟩ []) ∨
      ((dlookup (assembleRecord ⟨none, none⟩ ⟨none, none⟩ [])
          "Birth_Info").isSome = true ∧
       (dlookup (assembleRecord ⟨none, none⟩ ⟨none, none⟩ [])
          "Death_Info").isSome = true) :=
  c9_merged_records_have_birth_death_info
    ⟨fun _ => .ok ⟨200, "body"⟩, fun _ => ⟨some "John Doe", .found [], .raises, []⟩⟩
    1 "1" "u" [] "John Doe" (assembleRecord ⟨none, none⟩ ⟨none, none⟩ [])
    (by simp [get_info, get_info_children, get_grave_by_id, raise_for_status,
      get_name_of_page, get_birth_death_records, get_birth_record_of,
      get_death_record_of, get_birth_record, get_death_record, birthScan,
      deathScan, parse_page_info, processSections, get_next_parent,
      assembleRecord, dictUpdate, dlookup, dictSet, resultStore, get_name,
      collapseSpaces, collapseSpacesGo, replaceVV, FactDict.empty])

/-! ## C5 and C6: `parse_page_info` grouping, merging and defaulting -/

theorem processMembers_eq (lbl : Option String) (ms : List MemberItem) :
    ∀ ret, processMembers lbl ret ms =
      processEntries ret (ms.map (fun m => (lbl, m))) := by
  induction ms with
  | nil => intro ret; rfl
  | cons m t ih =>
    intro ret
    simp only [processMembers, List.map_cons, processEntries]
    rcases hpm : processMember lbl ret m with e | ret' <;> simp only [hpm]
    · rfl
    · exact ih ret'

theorem processEntries_append (a b : List (Option String × MemberItem)) :
    ∀ ret, processEntries ret (a ++ b) =
      match processEntries ret a with
      | .error e => .error e
      | .ok ret' => processEntries ret' b := by
  induction a with
  | nil => intro ret; rfl
  | cons e t ih =>
    intro ret
    simp only [List.cons_append, processEntries]
    rcases hpm : processMember e.1 ret e.2 with exc | ret' <;> simp only [hpm]
    all_goals first
    | rfl
    | exact ih ret'

theorem processSections_eq (sections : List PageSection) :
    ∀ ret, processSections ret sections =
      processEntries ret (flattenSections sections) := by
  induction sections with
  | nil => intro ret; rfl
  | cons s rest ih =>
    intro ret
    have hflat : flattenSections (s :: rest) =
        s.members.map (fun m => (s.label, m)) ++ flattenSections rest := by
      simp [flattenSections]
    rw [hflat, processEntries_append]
    simp only [processSections]
    rw [processMembers_eq s.label s.members ret]
    rcases hpe : processEntries ret (s.members.map (fun m => (s.label, m)))
      with e | ret' <;> simp only [hpe]
    · rfl
    · exact ih ret'

theorem processMember_wf (e : Option String × MemberItem) (ret : RelDict)
    (hwf : entryWF e) :
    processMember e.1 ret e.2 =
      .ok (insertEntry ret (entryLabel e) (entryName e) (entryMember e)) := by
  obtain ⟨lblOpt, h3, href, bD, dD⟩ := e
  obtain ⟨hl, hh, hd⟩ := hwf
  rcases lblOpt with _ | lb
  · simp at hl
  rcases h3 with _ | nm
  · simp at hh
  rcases href with _ | u
  · simp at hd
  have hred : processMember (some lb) ret ⟨some nm, some u, bD, dD⟩ =
      (match dlookup ret (pyStrip lb) with
        | some inner => Except.ok (dictSet ret (pyStrip lb)
            (dictUpdate inner [(pyStrip nm,
              ⟨u, (bD.map pyStrip).getD defaultDate,
                  (dD.map pyStrip).getD defaultDate⟩)]))
        | none => Except.ok (dictSet ret (pyStrip lb)
            [(pyStrip nm,
              ⟨u, (bD.map pyStrip).getD defaultDate,
                  (dD.map pyStrip).getD defaultDate⟩)])) := by
    cases bD <;> cases dD <;> rfl
  rw [hred]
  rcases hdl : dlookup ret (pyStrip lb) with _ | inner <;>
    simp [hdl, insertEntry, entryLabel, entryName, entryMember]

theorem lookup2_some_inner (d : RelDict) (L N : String) (inner : MemberDict)
    (h : dlookup d L = some inner) : lookup2 d L N = dlookup inner N := by
  unfold lookup2
  rw [h]

theorem lookup2_none (d : RelDict) (L N : String)
    (h : dlookup d L = none) : lookup2 d L N = none := by
  unfold lookup2
  rw [h]

theorem lookup2_insertEntry (ret : RelDict) (L N L' N' : String) (m : Member) :
    lookup2 (insertEntry ret L N m) L' N' =
      if L = L' ∧ N = N' then some m else lookup2 ret L' N' := by
  by_cases hL : L = L'
  · subst hL
    rcases hdl : dlookup ret L with _ | inner
    · have hins : insertEntry ret L N m = dictSet ret L [(N, m)] := by
        unfold insertEntry
        rw [hdl]
      rw [hins,
        lookup2_some_inner _ _ N' _ (dlookup_dictSet_self ret L [(N, m)])]
      by_cases hN : N = N'
      · subst hN
        simp [dlookup]
      · simp [dlookup, hN, lookup2_none ret L N' hdl]
    · have hins : insertEntry ret L N m =
          dictSet ret L (dictSet inner N m) := by
        unfold insertEntry
        rw [hdl]
        exact rfl
      rw [hins,
        lookup2_some_inner _ _ N' _
          (dlookup_dictSet_self ret L (dictSet inner N m))]
      by_cases hN : N = N'
      · subst hN
        rw [dlookup_dictSet_self]
        simp
      · rw [dlookup_dictSet_ne _ _ _ _ (fun hh => hN hh.symm)]
        rw [lookup2_some_inner ret L N' inner hdl]
        simp [hN]
  · have hL' : L' ≠ L := fun hh => hL hh.symm
    obtain ⟨X, hX⟩ : ∃ X, insertEntry ret L N m = dictSet ret L X := by
      unfold insertEntry
      rcases hdl : dlookup ret L with _ | inner
      · exact ⟨[(N, m)], rfl⟩
      · exact ⟨dictUpdate inner [(N, m)], rfl⟩
    rw [hX]
    unfold lookup2
    rw [dlookup_dictSet_ne _ _ _ _ hL']
    simp [hL]

theorem processEntries_char (entries : List (Option String × MemberItem)) :
    ∀ ret, (∀ e ∈ entries, entryWF e) →
    ∃ d, processEntries ret entries = .ok d ∧
      ∀ L N, lookup2 d L N = oelse (lastEntry entries L N) (lookup2 ret L N) := by
  induction entries with
  | nil =>
    intro ret _
    exact ⟨ret, rfl, fun L N => rfl⟩
  | cons e t ih =>
    intro ret hwf
    have he := hwf e (List.mem_cons_self _ _)
    have hrest : ∀ x ∈ t, entryWF x :=
      fun x hx => hwf x (List.mem_cons_of_mem _ hx)
    obtain ⟨d, hd, hchar⟩ :=
      ih (insertEntry ret (entryLabel e) (entryName e) (entryMember e)) hrest
    refine ⟨d, ?_, ?_⟩
    · simp only [processEntries]
      rw [processMember_wf e ret he]
      exact hd
    · intro L N
      rw [hchar L N, lookup2_insertEntry]
      simp only [lastEntry]
      rw [oelse_assoc]
      have hinner :
          (if entryLabel e = L ∧ entryName e = N then some (entryMember e)
            else lookup2 ret L N) =
          oelse (if entryLabel e = L ∧ entryName e = N then some (entryMember e)
            else none) (lookup2 ret L N) := by
        by_cases hc : entryLabel e = L ∧ entryName e = N <;> simp [hc, oelse]
      rw [hinner]

theorem lastEntry_isSome (L N : String) :
    ∀ entries : List (Option String × MemberItem),
      (lastEntry entries L N).isSome = true ↔
      ∃ e ∈ entries, entryLabel e = L ∧ entryName e = N := by
  intro entries
  induction entries with
  | nil => simp [lastEntry]
  | cons e t ih =>
    simp only [lastEntry]
    rcases hl : lastEntry t L N with _ | m
    · rw [hl] at ih
      by_cases hc : entryLabel e = L ∧ entryName e = N
      · simp only [oelse, if_pos hc]
        constructor
        · intro _; exact ⟨e, List.mem_cons_self _ _, hc⟩
        · intro _; rfl
      · simp only [oelse, if_neg hc]
        simp only [Option.isSome_none] at ih ⊢
        constructor
        · intro hfalse; exact absurd hfalse (by simp)
        · intro ⟨x, hx, hxc⟩
          rcases List.mem_cons.mp hx with hxe | hxt
          · subst hxe; exact absurd hxc hc
          · exact absurd (ih.mpr ⟨x, hxt, hxc⟩) (by simp)
    · simp only [oelse]
      constructor
      · intro _
        obtain ⟨x, hxt, hxc⟩ := ih.mp (by rw [hl]; rfl)
        exact ⟨x, List.mem_cons_of_mem _ hxt, hxc⟩
      · intro _; rfl

/-- C5: `parse_page_info` groups member entries by their section's
trimmed label: on well-formed sections it succeeds, and a lookup of
(label, name) in the result returns exactly the member contributed by
the last entry with that label and name anywhere on the page — so a
label occurring in two separate sections accumulates the union of both
sections' entries under the one key (an existing label's inner dict is
added to, not replaced), and a name collision within a label is won by
the later entry. -/
theorem c5_labels_merge_across_sections (sections : List PageSection)
    (hwf : ∀ e ∈ flattenSections sections, entryWF e) :
    ∃ d, parse_page_info sections = .ok d ∧
      (∀ L N, lookup2 d L N = lastEntry (flattenSections sections) L N) ∧
      (∀ L N, (lastEntry (flattenSections sections) L N).isSome = true ↔
        ∃ e ∈ flattenSections sections, entryLabel e = L ∧ entryName e = N) := by
  obtain ⟨d, hd, hchar⟩ := processEntries_char (flattenSections sections) [] hwf
  refine ⟨d, ?_, ?_, fun L N => lastEntry_isSome L N _⟩
  · rw [parse_page_info, processSections_eq]
    exact hd
  · intro L N
    rw [hchar L N]
    have : lookup2 [] L N = none := rfl
    rw [this, oelse_none_right]

/-- Witness for C5's theorem: two sections with the same label
`"Parents"`, the second contributing a second name into the same
bucket. -/
theorem c5_witness :
    ∃ d, parse_page_info
        [⟨[⟨some "Anna", some "/m/1/a", none, none⟩], some "Parents"⟩,
         ⟨[⟨some "Bert", some "/m/2/b", some "1 Mar 1800", none⟩],
          some "Parents"⟩] = .ok d ∧
      (∀ L N, lookup2 d L N =
        lastEntry (flattenSections
          [⟨[⟨some "Anna", some "/m/1/a", none, none⟩], some "Parents"⟩,
           ⟨[⟨some "Bert", some "/m/2/b", some "1 Mar 1800", none⟩],
            some "Parents"⟩]) L N) ∧
      (∀ L N, (lastEntry (flattenSections
          [⟨[⟨some "Anna", some "/m/1/a", none, none⟩], some "Parents"⟩,
           ⟨[⟨some "Bert", some "/m/2/b", some "1 Mar 1800", none⟩],
            some "Parents"⟩]) L N).isSome = true ↔
        ∃ e ∈ flattenSections
          [⟨[⟨some "Anna", some "/m/1/a", none, none⟩], some "Parents"⟩,
           ⟨[⟨some "Bert", some "/m/2/b", some "1 Mar 1800", none⟩],
            some "Parents"⟩], entryLabel e = L ∧ entryName e = N) :=
  c5_labels_merge_across_sections
    [⟨[⟨some "Anna", some "/m/1/a", none, none⟩], some "Parents"⟩,
     ⟨[⟨some "Bert", some "/m/2/b", some "1 Mar 1800", none⟩],
      some "Parents"⟩] (by decide)

/-- C6: for every member entry processed by `parse_page_info` (one pass
of the inner loop body, `processMember`), the member recorded under the
entry's trimmed name carries the entry's `data-href` url, and its birth
and death dates are each *individually* the fixed sentinel
`"1 Jan 1001"` when the corresponding marked element is absent, and the
element's trimmed text when present. -/
theorem c6_dates_individually_defaulted (lb nm u : String)
    (bD dD : Option String) (ret : RelDict) :
    ∃ mem : Member,
      processMember (some lb) ret ⟨some nm, some u, bD, dD⟩ =
        .ok (insertEntry ret (pyStrip lb) (pyStrip nm) mem) ∧
      mem.url = u ∧
      (bD = none → mem.bday = defaultDate) ∧
      (∀ s, bD = some s → mem.bday = pyStrip s) ∧
      (dD = none → mem.dday = defaultDate) ∧
      (∀ s, dD = some s → mem.dday = pyStrip s) := by
  refine ⟨entryMember (some lb, ⟨some nm, some u, bD, dD⟩), ?_, rfl, ?_, ?_, ?_, ?_⟩
  · exact processMember_wf (some lb, ⟨some nm, some u, bD, dD⟩) ret
      ⟨rfl, rfl, rfl⟩
  · intro h; subst h; rfl
  · intro s h; subst h; rfl
  · intro h; subst h; rfl
  · intro s h; subst h; rfl

/-- Witness for C6's theorem: an entry with no birth-date element and a
padded death-date element — the recorded member holds the sentinel birth
date and the trimmed death date. -/
theorem c6_witness :
    processMember (some "Parents") []
        ⟨some "Ann", some "/m/9/x", none, some " 2 Feb 1900 "⟩ =
      .ok (insertEntry [] "Parents" "Ann"
        ⟨"/m/9/x", "1 Jan 1001", "2 Feb 1900"⟩) := by
  obtain ⟨mem, h1, h2, h3, _, _, h6⟩ :=
    c6_dates_individually_defaulted "Parents" "Ann" "/m/9/x"
      none (some " 2 Feb 1900 ") []
  obtain ⟨u', b', d'⟩ := mem
  simp only at h2
  have hb : b' = defaultDate := h3 rfl
  have hd : d' = pyStrip " 2 Feb 1900 " := h6 _ rfl
  rw [h1, h2, hb, hd]
  rfl

end Graves
